import Mathlib

/-!
Shallow embedding of `pypret/mesh_data.py` (class `MeshData`).

Numeric arrays are modelled over `ℚ`: an `NDArray` is a shape together with a
total lookup function; only index vectors pointwise below the shape are
meaningful, and array equality is extensional equality on those indices.
1-D coordinate axes are plain lists.  Fallible methods return
`Except MeshError`.  The collaborators that are not part of this repository's
`src/` (`lib.marginals`, `lib.limit`, `lib.build_coords`,
`scipy.interpolate.RegularGridInterpolator`) are modelled from the spec's
contracts (§6) where needed; each such definition says so in its doc comment.
-/

/-- An N-dimensional dense numeric array (model of a numpy `ndarray`):
a shape and a total lookup function.  Only index vectors pointwise below the
shape are meaningful. -/
structure NDArray where
  shape : List Nat
  get : List Nat → ℚ

/-- All valid index vectors of a shape, in row-major order. -/
def allIdx : List Nat → List (List Nat)
  | [] => [[]]
  | d :: ds => (List.range d).flatMap (fun i => (allIdx ds).map (i :: ·))

/-- Extensional equality of arrays: same shape and same entries at every
valid index. -/
def NDArray.extEq (a b : NDArray) : Prop :=
  a.shape = b.shape ∧ ∀ idx ∈ allIdx a.shape, a.get idx = b.get idx

instance (a b : NDArray) : Decidable (a.extEq b) := by
  unfold NDArray.extEq; infer_instance

/-- The Python slice objects `mesh_data.py` uses: `slice(None)`,
`slice(a, b)` and `slice(None, None, -1)`. -/
inductive Slice where
  | all : Slice
  | rng (a b : Nat) : Slice
  | rev : Slice
deriving DecidableEq

/-- Length of the result of applying a slice to a dimension of size `d`
(with numpy's clamping of out-of-range bounds). -/
def sliceLen : Slice → Nat → Nat
  | .all, d => d
  | .rng a b, d => min b d - a
  | .rev, d => d

/-- Source index that position `i` of the sliced result refers to. -/
def sliceIdxMap : Slice → Nat → Nat → Nat
  | .all, _, i => i
  | .rng a _, _, i => a + i
  | .rev, d, i => d - 1 - i

/-- Apply one slice to a 1-D array given as a list. -/
def sliceList : Slice → List ℚ → List ℚ
  | .all, l => l
  | .rng a b, l => (l.drop a).take (b - a)
  | .rev, l => l.reverse

/-- Map a result index vector back to the source index vector, one slice per
dimension. -/
def sliceTargets : List Slice → List Nat → List Nat → List Nat
  | s :: sl, d :: ds, i :: is => sliceIdxMap s d i :: sliceTargets sl ds is
  | _, _, _ => []

/-- `data[(*slices,)]`: apply one slice per dimension to an N-D array. -/
def applySlices (sl : List Slice) (a : NDArray) : NDArray where
  shape := List.zipWith sliceLen sl a.shape
  get := fun idx => a.get (sliceTargets sl a.shape idx)

/-- `np.abs` on one rational (spelled out so that it evaluates by kernel
reduction). -/
def qabs (a : ℚ) : ℚ := if a < 0 then -a else a

/-- Binary maximum of rationals (spelled out so that it evaluates by kernel
reduction). -/
def qmax (a b : ℚ) : ℚ := if a ≤ b then b else a

/-- Helper for `argminAbs`: scan the remaining list keeping the best index
and best value so far (strict comparison keeps the first minimiser, as
`np.argmin` does). -/
def argminAbsAux (x : ℚ) : List ℚ → Nat → Nat → ℚ → Nat
  | [], _, bi, _ => bi
  | a :: l, i, bi, bv =>
      if qabs (a - x) < bv then argminAbsAux x l (i + 1) i (qabs (a - x))
      else argminAbsAux x l (i + 1) bi bv

/-- First index minimising the distance to `x`:
`np.argmin(np.abs(ax - x))` from `MeshData.limit`. -/
def argminAbs (x : ℚ) : List ℚ → Nat
  | [] => 0
  | a :: l => argminAbsAux x l 1 0 (qabs (a - x))

/-- The errors `mesh_data.py` can raise. -/
inductive MeshError where
  /-- `ValueError` from `__init__`: axis count or axis length mismatch. -/
  | shape : MeshError
  /-- `ValueError` from `limit`: number of limits does not match the axes. -/
  | arity : MeshError
  /-- `ValueError` from `limit`: empty slice along (requested-list position) `i`. -/
  | emptySlice (i : Nat) : MeshError
  /-- `IndexError`: `axes[i]` for `i ≥ 2` in `interpolate`. -/
  | index : MeshError
deriving DecidableEq

/-- The `MeshData` container: one data array, one coordinate axis per
dimension, label and unit strings. -/
structure MeshData where
  data : NDArray
  axes : List (List ℚ)
  labels : List String
  units : List String

/-- `MeshData.ndim`: dimensionality of the data array. -/
def MeshData.ndim (m : MeshData) : Nat := m.data.shape.length

/-- The shape invariant of §3 of the spec: one axis per data dimension, each
of the dimension's length. -/
def MeshData.valid (m : MeshData) : Prop :=
  m.axes.length = m.data.shape.length ∧
  ∀ j < m.axes.length, (m.axes.getD j []).length = m.data.shape.getD j 0

instance (m : MeshData) : Decidable m.valid := by
  unfold MeshData.valid; infer_instance

/-- `MeshData.__init__`: copies data and axes (hence value semantics here),
checks the axis count and the axis lengths against the data shape, and fills
missing labels/units with one empty string per axis. -/
def mkMeshData (data : NDArray) (axes : List (List ℚ))
    (labels units : Option (List String)) : Except MeshError MeshData :=
  if data.shape.length ≠ axes.length then .error .shape
  else if data.shape ≠ axes.map List.length then .error .shape
  else .ok { data := data, axes := axes,
             labels := labels.getD (axes.map fun _ => ""),
             units := units.getD (axes.map fun _ => "") }

/-- `np.ndarray.max()`: maximum over all valid entries (0 for an empty
array, where numpy would raise). -/
def ndMax (a : NDArray) : ℚ :=
  match (allIdx a.shape).map a.get with
  | [] => 0
  | v :: vs => vs.foldl qmax v

/-- `MeshData.normalize`: `self.data /= self.data.max()`. -/
def MeshData.normalize (m : MeshData) : MeshData :=
  { m with data := { shape := m.data.shape,
                     get := fun idx => m.data.get idx / ndMax m.data } }

/-- One step of the slice-construction loop of `MeshData.limit`, for
dimension `j`.  For a requested axis (`j in axes`) the two nearest-sample
indices are found, put in increasing order (the source's
`if idx1 > idx2: swap` is exactly `min`/`max` of the two), an empty
selection raises `ValueError` carrying the requested-list position `i`, and
otherwise the kept range is `[lo, hi]` inclusive, i.e. `slice(lo, hi+1)`.
Unrequested axes get the identity slice. -/
def sliceFor (axes : List (List ℚ)) (limits : List (ℚ × ℚ))
    (axesL : List Nat) (j : Nat) : Except MeshError Slice :=
  if j ∈ axesL then
    let i := axesL.indexOf j
    let x := limits.getD i (0, 0)
    let ax := axes.getD j []
    let idx1 := argminAbs x.1 ax
    let idx2 := argminAbs x.2 ax
    if min idx1 idx2 = max idx1 idx2 then .error (.emptySlice i)
    else .ok (.rng (min idx1 idx2) (max idx1 idx2 + 1))
  else .ok .all

/-- The slice-construction loop of `MeshData.limit`, iterating `j` over
`range(ndim)` (passed as the last argument); the first failing dimension
aborts the call. -/
def buildLimitSlices (axes : List (List ℚ)) (limits : List (ℚ × ℚ))
    (axesL : List Nat) : List Nat → Except MeshError (List Slice)
  | [] => .ok []
  | j :: js =>
      match sliceFor axes limits axesL j with
      | .error e => .error e
      | .ok s =>
          match buildLimitSlices axes limits axesL js with
          | .error e => .error e
          | .ok rest => .ok (s :: rest)

/-- `MeshData.limit(*limits, axes=None)`.  `axes=None` selects all axes.
(`lib.as_list` is not under `src/`; per its use in the spec it converts the
argument to a list, which `axesOpt` already is.) -/
def MeshData.limit (m : MeshData) (limits : List (ℚ × ℚ))
    (axesOpt : Option (List Nat)) : Except MeshError MeshData :=
  let axesL := axesOpt.getD (List.range m.ndim)
  if axesL.length ≠ limits.length then .error .arity
  else
    match buildLimitSlices m.axes limits axesL (List.range m.ndim) with
    | .error e => .error e
    | .ok slices =>
        .ok { m with data := applySlices slices m.data,
                     axes := List.zipWith sliceList slices m.axes }

/-- `MeshData.flip(*axes)`: no-op when no axes are given; otherwise reverse
each requested coordinate axis and reverse the data along the same
dimensions (identity slice everywhere else). -/
def MeshData.flip (m : MeshData) (axesL : List Nat) : MeshData :=
  if axesL.length = 0 then m
  else
    let slices := axesL.foldl (fun sl ax => sl.set ax Slice.rev)
      (m.axes.map fun _ => Slice.all)
    { m with
      axes := axesL.foldl (fun axs ax => axs.set ax (axs.getD ax []).reverse)
        m.axes,
      data := applySlices slices m.data }

/-- `MeshData.autolimit(*axes, threshold, padding)`.
Modelled from the spec: `lib.marginals` (MarginalComputer, §6) and
`lib.limit` (FindThresholdLimit, §6) are collaborators whose code is not
under `src/`; `autolimit` only forwards the coordinate interval they produce
for each requested axis to `limit`, so the composition of the two is
abstracted as the parameter `findLimit`. -/
def MeshData.autolimit (m : MeshData) (axesArg : List Nat)
    (findLimit : Nat → ℚ × ℚ) : Except MeshError MeshData :=
  let axesL := if axesArg.length = 0 then List.range m.ndim else axesArg
  m.limit (axesL.map findLimit) (some axesL)

/-- Insert index `i` into an index list ordered by the values of `l`
(helper for `argsort`): `i` goes before the first index whose value is not
below `l[i]`. -/
def insertByVal (l : List ℚ) (i : Nat) : List Nat → List Nat
  | [] => [i]
  | j :: js => if l.getD j 0 < l.getD i 0 then j :: insertByVal l i js
               else i :: j :: js

/-- `np.argsort`: the permutation of `range(len(l))` that sorts `l`
ascending (insertion sort on indices, compared by value). -/
def argsort (l : List ℚ) : List Nat :=
  List.foldr (insertByVal l) [] (List.range l.length)

/-- `np.take(a, idx, axis=i)`: gather along dimension `i`; the result has
`idx.length` entries along that dimension, entry `k` being the slice of `a`
at position `idx[k]`. -/
def takeAlong (a : NDArray) (i : Nat) (idx : List Nat) : NDArray where
  shape := a.shape.set i idx.length
  get := fun j => a.get (j.set i (idx.getD (j.getD i 0) 0))

/-- The pre-sorting loop of `MeshData.interpolate` (the `sorted=False`
path): for each dimension `i`, sort the source axis ascending and permute
the data along dimension `i` by the same `argsort` permutation. -/
def sortAxesData (axes : List (List ℚ)) (a : NDArray) :
    List (List ℚ) × NDArray :=
  (List.range axes.length).foldl
    (fun p i =>
      let idx := argsort (p.1.getD i [])
      (p.1.set i (idx.map fun k => (p.1.getD i []).getD k 0),
       takeAlong p.2 i idx))
    (axes, a)

/-- Modelled from the spec: cell search of
`scipy.interpolate.RegularGridInterpolator` (GridInterpolator, §6).  For a
strictly increasing axis it returns the cell index
`clamp(searchsorted(ax, x, side="right") - 1, 0, len - 2)` together with the
normalized position of `x` inside that cell. -/
def findT (ax : List ℚ) (x : ℚ) : Nat × ℚ :=
  let k := min (ax.countP (fun a => decide (a ≤ x)) - 1) (ax.length - 2)
  (k, (x - ax.getD k 0) / (ax.getD (k + 1) 0 - ax.getD k 0))

/-- Modelled from the spec: a 2-D `RegularGridInterpolator` (GridInterpolator,
§6) with `bounds_error=False, fill_value=0.0` and the default linear method
(the source never forwards its `degree` parameter).  Out-of-range queries
return the fill value 0; in-range queries are interpolated bilinearly from
the four surrounding grid nodes. -/
def gridInterp2 (ax0 ax1 : List ℚ) (f : Nat → Nat → ℚ) (x y : ℚ) : ℚ :=
  if ax0.getD 0 0 ≤ x ∧ x ≤ ax0.getD (ax0.length - 1) 0 ∧
     ax1.getD 0 0 ≤ y ∧ y ≤ ax1.getD (ax1.length - 1) 0 then
    let p0 := findT ax0 x
    let p1 := findT ax1 y
    (1 - p0.2) * (1 - p1.2) * f p0.1 p1.1 +
    (1 - p0.2) * p1.2 * f p0.1 (p1.1 + 1) +
    p0.2 * (1 - p1.2) * f (p0.1 + 1) p1.1 +
    p0.2 * p1.2 * f (p0.1 + 1) (p1.1 + 1)
  else 0

/-- `MeshData.interpolate(axis1, axis2, degree, sorted)`.  The target-axis
list is built from exactly the two slots `[axis1, axis2]`, so the loop
`for i in range(self.ndim)` raises `IndexError` as soon as `ndim > 2`
(before any state is mutated).  Modelled from the spec for the remaining
dimensionalities: for `ndim ≠ 2` the collaborators reject the call
(`lib.build_coords` receives a `None` axis, or the interpolator receives
query points whose dimension differs from the grid's), modelled as
`.error .shape`; for `ndim = 2` the data is resampled on the outer-product
grid of the two target axes (`lib.build_coords`, §6) through the grid
interpolator, and the axes are replaced by the target axes. -/
def MeshData.interpolate (m : MeshData) (axis1 axis2 : Option (List ℚ))
    (sorted : Bool) : Except MeshError MeshData :=
  if 2 < m.ndim then .error .index
  else if m.ndim ≠ 2 then .error .shape
  else
    let t0 := axis1.getD (m.axes.getD 0 [])
    let t1 := axis2.getD (m.axes.getD 1 [])
    let src := if sorted then (m.axes, m.data) else sortAxesData m.axes m.data
    .ok { m with
      data := { shape := [t0.length, t1.length],
                get := fun idx =>
                  gridInterp2 (src.1.getD 0 []) (src.1.getD 1 [])
                    (fun k l => src.2.get [k, l])
                    (t0.getD (idx.getD 0 0) 0) (t1.getD (idx.getD 1 0) 0) },
      axes := [t0, t1] }

/-! ### Reference-aware model for `copy()`

`__init__` always copies `data` and the axis arrays, so value semantics is
faithful for them: no aliasing between containers can exist through those
fields.  The `labels` and `units` lists, however, are assigned without a
copy (`self.labels = labels`), so a container constructed from an existing
list shares that list object.  To make that observable, this model keeps the
label/unit lists in an explicit store of mutable cells and lets containers
hold references into it. -/

/-- A store of mutable Python `list`-of-`str` objects. -/
structure StrStore where
  cells : List (List String)
deriving DecidableEq

/-- Allocate a fresh list object in the store. -/
def StrStore.alloc (st : StrStore) (v : List String) : StrStore × Nat :=
  (⟨st.cells ++ [v]⟩, st.cells.length)

/-- A `MeshData` object in the reference-aware model: arrays by value
(they are always copied), labels/units as references into the store. -/
structure MeshObj where
  data : NDArray
  axes : List (List ℚ)
  labelsRef : Nat
  unitsRef : Nat

/-- `MeshData.__init__` in the reference-aware model: same checks as
`mkMeshData`; a supplied labels/units list is aliased
(`self.labels = labels`), a missing one is freshly allocated. -/
def mkMeshObj (st : StrStore) (data : NDArray) (axes : List (List ℚ))
    (labels units : Option Nat) : Except MeshError (StrStore × MeshObj) :=
  if data.shape.length ≠ axes.length then .error .shape
  else if data.shape ≠ axes.map List.length then .error .shape
  else
    let pl := match labels with
      | some r => (st, r)
      | none => st.alloc (axes.map fun _ => "")
    let pu := match units with
      | some r => (pl.1, r)
      | none => pl.1.alloc (axes.map fun _ => "")
    .ok (pu.1, { data := data, axes := axes,
                 labelsRef := pl.2, unitsRef := pu.2 })

/-- `MeshData.copy`: the constructor called with the original's own label
and unit lists (`labels=self.labels, units=self.units`). -/
def copyObj (st : StrStore) (o : MeshObj) : Except MeshError (StrStore × MeshObj) :=
  mkMeshObj st o.data o.axes (some o.labelsRef) (some o.unitsRef)

/-- The label list an object sees, read through its reference. -/
def MeshObj.labels (o : MeshObj) (st : StrStore) : List String :=
  st.cells.getD o.labelsRef []

/-- The unit list an object sees, read through its reference. -/
def MeshObj.units (o : MeshObj) (st : StrStore) : List String :=
  st.cells.getD o.unitsRef []

/-- `obj.labels[i] = v`: in-place mutation of the label list object. -/
def MeshObj.setLabel (o : MeshObj) (st : StrStore) (i : Nat) (v : String) :
    StrStore :=
  ⟨st.cells.set o.labelsRef ((st.cells.getD o.labelsRef []).set i v)⟩

/-! ### Concrete containers used by the scenario claims -/

/-- A 5×5 data array with pairwise distinct entries. -/
def d55 : NDArray where
  shape := [5, 5]
  get := fun idx => (idx.getD 0 0 : ℚ) * 5 + (idx.getD 1 0 : ℚ)

/-- The 2-D container of the `limit` scenario: axes `[0,1,2,3,4]` and
`[4,3,2,1,0]`. -/
def mesh55 : MeshData where
  data := d55
  axes := [[0, 1, 2, 3, 4], [4, 3, 2, 1, 0]]
  labels := ["", ""]
  units := ["", ""]

/-- The container `limit((1,3), axes=[0])` produces from `mesh55`: the
per-dimension slices come out as `slice(1, 4)` and `slice(None)`. -/
def mesh55lim : MeshData :=
  { mesh55 with
    data := applySlices [Slice.rng 1 4, Slice.all] mesh55.data,
    axes := List.zipWith sliceList [Slice.rng 1 4, Slice.all] mesh55.axes }

/-- Rows of the `normalize` scenario data. -/
def d22Rows : List (List ℚ) := [[2, 4], [6, 8]]

/-- The 2×2 data array `[[2,4],[6,8]]` of the `normalize` scenario. -/
def d22 : NDArray where
  shape := [2, 2]
  get := fun idx => (d22Rows.getD (idx.getD 0 0) []).getD (idx.getD 1 0) 0

/-- The container of the `normalize` scenario. -/
def mesh22 : MeshData where
  data := d22
  axes := [[0, 1], [0, 1]]
  labels := ["", ""]
  units := ["", ""]

/-- A 3-dimensional container (for the `interpolate` dimensionality claim). -/
def mesh3 : MeshData where
  data := { shape := [2, 2, 2], get := fun _ => 0 }
  axes := [[0, 1], [0, 1], [0, 1]]
  labels := ["", "", ""]
  units := ["", "", ""]

/-- Store state after constructing the `copy()`-scenario container: the
constructor allocated cell 0 for its labels and cell 1 for its units. -/
def c7St1 : StrStore := ⟨[["", ""], ["", ""]]⟩

/-- The `copy()`-scenario original container. -/
def c7Orig : MeshObj where
  data := d22
  axes := [[0, 1], [2, 3]]
  labelsRef := 0
  unitsRef := 1

/-- The copy of `c7Orig`: identical contents, and the same label/unit
references (the constructor aliases a supplied list). -/
def c7Copy : MeshObj where
  data := d22
  axes := [[0, 1], [2, 3]]
  labelsRef := 0
  unitsRef := 1

/-! ## Helper lemmas -/

theorem getD_map_length (l : List (List ℚ)) (j : Nat) :
    (l.map List.length).getD j 0 = (l.getD j []).length := by
  induction l generalizing j with
  | nil => simp [List.getD]
  | cons a t ih =>
      cases j with
      | zero => simp
      | succ j => simpa using ih j

theorem length_sliceList (s : Slice) (l : List ℚ) :
    (sliceList s l).length = sliceLen s l.length := by
  cases s with
  | all => rfl
  | rng a b => simp only [sliceList, sliceLen, List.length_take, List.length_drop]; omega
  | rev => simp [sliceList, sliceLen]

theorem mem_allIdx {ds idx : List Nat} :
    idx ∈ allIdx ds ↔ List.Forall₂ (· < ·) idx ds := by
  induction ds generalizing idx with
  | nil =>
      simp only [allIdx, List.mem_singleton, List.forall₂_nil_right_iff]
  | cons d ds ih =>
      simp only [allIdx, List.mem_flatMap, List.mem_map, List.mem_range]
      constructor
      · rintro ⟨i, hi, tl, htl, rfl⟩
        exact List.Forall₂.cons hi (ih.mp htl)
      · intro h
        cases h with
        | cons hd tl' => exact ⟨_, hd, _, ih.mpr tl', rfl⟩

theorem set_getD_self {α : Type} (l : List α) (i : Nat) (d : α) :
    l.set i (l.getD i d) = l := by
  induction l generalizing i with
  | nil => simp
  | cons a t ih =>
      cases i with
      | zero => simp
      | succ i => simpa using ih i

/-! ## C2: the explicit 5×5 `limit` scenario -/

/-- C2: for the 2-D container with data of shape (5,5), first axis
`[0,1,2,3,4]` and second axis `[4,3,2,1,0]`, `limit((1,3), axes=[0])` yields
data of shape (3,5) holding rows 1..3 of the original data, first axis
`[1,2,3]`, and second axis still `[4,3,2,1,0]`. -/
theorem limit_scenario_5x5 :
    ∃ m2, mesh55.limit [(1, 3)] (some [0]) = .ok m2 ∧
      m2.data.shape = [3, 5] ∧
      m2.axes = [[1, 2, 3], [4, 3, 2, 1, 0]] ∧
      m2.data.extEq ⟨[3, 5], fun idx => d55.get [idx.getD 0 0 + 1, idx.getD 1 0]⟩ := by
  refine ⟨mesh55lim, ?_, ?_, ?_, ?_⟩
  · with_unfolding_all rfl
  · with_unfolding_all decide
  · with_unfolding_all decide
  · with_unfolding_all decide

/-! ## C9: the `normalize` scenario -/

/-- C9: `normalize()` divides every entry of `data` in place by the global
maximum (leaving shape and axes untouched); on `[[2,4],[6,8]]` the maximum
becomes 1 and every element is the original times 1/8. -/
theorem normalize_scenario :
    (∀ (m : MeshData) (idx : List Nat),
        m.normalize.data.get idx = m.data.get idx * (ndMax m.data)⁻¹ ∧
        m.normalize.data.shape = m.data.shape ∧
        m.normalize.axes = m.axes) ∧
    ndMax mesh22.normalize.data = 1 ∧
    mesh22.normalize.data.extEq ⟨[2, 2], fun idx => mesh22.data.get idx * (1 / 8)⟩ := by
  refine ⟨fun m idx => ⟨div_eq_mul_inv _ _, rfl, rfl⟩, ?_, ?_⟩
  · with_unfolding_all decide
  · with_unfolding_all decide

/-! ## C10: `interpolate` on more than two dimensions -/

/-- C10: for every container with `ndim > 2`, `interpolate` raises the
index error (the target-axis list has exactly two slots while the loop runs
over all `ndim` dimensions) before any state is mutated — the returned
value is the bare error, carrying no post-state. -/
theorem interpolate_three_dim_raises (m : MeshData) (a1 a2 : Option (List ℚ))
    (srt : Bool) (h : 2 < m.ndim) :
    m.interpolate a1 a2 srt = .error .index := by
  unfold MeshData.interpolate
  rw [if_pos h]

theorem interpolate_three_dim_raises_witness :
    2 < mesh3.ndim ∧ mesh3.interpolate none none false = .error .index :=
  ⟨by decide, interpolate_three_dim_raises mesh3 none none false (by decide)⟩

/-! ## C8: default labels and units -/

/-- C8: evaluation of the constructor at a 2-dimensional container built
without explicit labels or units.  The defaults are
`["" for ax in self.axes]` — `ndim` empty strings, not the `ndim + 1` the
constructor's own docstring convention ("labels must have one more element
than the number of axes") and the spec require. -/
theorem default_labels_count_eval :
    ∃ m, mkMeshData d22 [[0, 1], [2, 3]] none none = .ok m ∧
      m.data.shape.length = 2 ∧
      m.labels = ["", ""] ∧ m.units = ["", ""] ∧
      m.labels.length = 2 ∧ m.units.length = 2 := by
  refine ⟨{ data := d22, axes := [[0, 1], [2, 3]],
            labels := ["", ""], units := ["", ""] }, ?_, ?_, ?_, ?_, ?_, ?_⟩
  · with_unfolding_all rfl
  · with_unfolding_all decide
  · with_unfolding_all decide
  · with_unfolding_all decide
  · with_unfolding_all decide
  · with_unfolding_all decide

/-! ## C7: `copy()` independence -/

/-- Counterexample to C7: construct a container (its constructor allocates
the label list, cell 0, and the unit list, cell 1), `copy()` it — the copy
holds the SAME label/unit references, because `copy()` passes
`labels=self.labels` to a constructor that assigns without copying — and
then mutate the copy's label list in place.  The original's labels change
from `["", ""]` to `["x", ""]`. -/
theorem copy_labels_alias_cex :
    mkMeshObj ⟨[]⟩ d22 [[0, 1], [2, 3]] none none = .ok (c7St1, c7Orig) ∧
    copyObj c7St1 c7Orig = .ok (c7St1, c7Copy) ∧
    c7Copy.labels c7St1 = c7Orig.labels c7St1 ∧
    c7Copy.data = c7Orig.data ∧ c7Copy.axes = c7Orig.axes ∧
    c7Orig.labels (c7Copy.setLabel c7St1 0 "x") = ["x", ""] ∧
    c7Orig.labels c7St1 = ["", ""] ∧
    c7Orig.labels (c7Copy.setLabel c7St1 0 "x") ≠ c7Orig.labels c7St1 := by
  refine ⟨?_, ?_, rfl, rfl, rfl, rfl, rfl, ?_⟩
  · with_unfolding_all rfl
  · with_unfolding_all rfl
  · decide

/-- C7 (amended): `copy()` returns a container with identical data, axes,
labels and units, and the data and axis arrays are deep-copied (value
semantics, so array mutations are independent) — but the label and unit
list objects are shared by reference between the copy and the original, so
in-place mutation of one is visible through the other. -/
theorem copy_shares_label_refs (st : StrStore) (o : MeshObj)
    (st2 : StrStore) (o2 : MeshObj) (h : copyObj st o = .ok (st2, o2)) :
    st2 = st ∧ o2.data = o.data ∧ o2.axes = o.axes ∧
    o2.labelsRef = o.labelsRef ∧ o2.unitsRef = o.unitsRef ∧
    o2.labels st2 = o.labels st2 ∧ o2.units st2 = o.units st2 := by
  unfold copyObj mkMeshObj at h
  split at h
  · exact absurd h (by simp)
  · split at h
    · exact absurd h (by simp)
    · simp only [Except.ok.injEq, Prod.mk.injEq] at h
      obtain ⟨rfl, rfl⟩ := h
      exact ⟨rfl, rfl, rfl, rfl, rfl, rfl, rfl⟩

theorem copy_shares_label_refs_witness :
    c7St1 = c7St1 ∧ c7Copy.data = c7Orig.data ∧ c7Copy.axes = c7Orig.axes ∧
    c7Copy.labelsRef = c7Orig.labelsRef ∧ c7Copy.unitsRef = c7Orig.unitsRef ∧
    c7Copy.labels c7St1 = c7Orig.labels c7St1 ∧
    c7Copy.units c7St1 = c7Orig.units c7St1 :=
  copy_shares_label_refs c7St1 c7Orig c7St1 c7Copy (by with_unfolding_all rfl)

/-! ## C3: `limit` is independent of the order of the two bounds -/

theorem sliceFor_pair_swap (axes : List (List ℚ)) (x1 x2 : ℚ) (j j2 : Nat) :
    sliceFor axes [(x1, x2)] [j] j2 = sliceFor axes [(x2, x1)] [j] j2 := by
  by_cases hj : j2 ∈ [j]
  · have hj2 : j2 = j := by simpa using hj
    subst hj2
    simp only [sliceFor, if_pos hj, List.indexOf_cons_self, List.getD_cons_zero]
    rw [min_comm (argminAbs x2 (axes.getD j2 [])) (argminAbs x1 (axes.getD j2 [])),
        max_comm (argminAbs x2 (axes.getD j2 [])) (argminAbs x1 (axes.getD j2 []))]
  · simp only [sliceFor, if_neg hj]

theorem buildLimitSlices_congr (axes : List (List ℚ)) (l1 l2 : List (ℚ × ℚ))
    (axesL : List Nat)
    (h : ∀ j, sliceFor axes l1 axesL j = sliceFor axes l2 axesL j) :
    ∀ js, buildLimitSlices axes l1 axesL js = buildLimitSlices axes l2 axesL js := by
  intro js
  induction js with
  | nil => rfl
  | cons j js ih => simp only [buildLimitSlices, h j, ih]

/-- C3: for every container, axis index and pair of coordinates,
`limit((x1,x2))` and `limit((x2,x1))` on that axis return identical results
(the nearest-sample indices are reordered internally, so the outcome —
success state or error — does not depend on the argument order). -/
theorem limit_order_independence (m : MeshData) (j : Nat) (x1 x2 : ℚ) :
    m.limit [(x1, x2)] (some [j]) = m.limit [(x2, x1)] (some [j]) := by
  simp only [MeshData.limit, Option.getD_some, List.length_cons, List.length_nil]
  rw [buildLimitSlices_congr m.axes [(x1, x2)] [(x2, x1)] [j]
      (sliceFor_pair_swap m.axes x1 x2 j) (List.range m.ndim)]

/-! ## C4: `limit` raises the empty-slice error exactly on index collapse -/

theorem sliceFor_error_emptySlice {axes : List (List ℚ)}
    {limits : List (ℚ × ℚ)} {axesL : List Nat} {j : Nat} {e : MeshError}
    (h : sliceFor axes limits axesL j = .error e) : ∃ i, e = .emptySlice i := by
  simp only [sliceFor] at h
  split at h
  · split at h
    · exact ⟨_, (Except.error.injEq _ _).mp h.symm⟩
    · exact absurd h (by simp)
  · exact absurd h (by simp)

theorem sliceFor_error_iff (axes : List (List ℚ)) (limits : List (ℚ × ℚ))
    (axesL : List Nat) (j : Nat) :
    (∃ i, sliceFor axes limits axesL j = .error (.emptySlice i)) ↔
    (j ∈ axesL ∧
      argminAbs (limits.getD (axesL.indexOf j) (0, 0)).1 (axes.getD j []) =
      argminAbs (limits.getD (axesL.indexOf j) (0, 0)).2 (axes.getD j [])) := by
  by_cases hj : j ∈ axesL
  · simp only [sliceFor, if_pos hj]
    by_cases he :
        min (argminAbs (limits.getD (axesL.indexOf j) (0, 0)).1 (axes.getD j []))
            (argminAbs (limits.getD (axesL.indexOf j) (0, 0)).2 (axes.getD j [])) =
        max (argminAbs (limits.getD (axesL.indexOf j) (0, 0)).1 (axes.getD j []))
            (argminAbs (limits.getD (axesL.indexOf j) (0, 0)).2 (axes.getD j []))
    · simp only [if_pos he]
      constructor
      · intro _; exact ⟨hj, by omega⟩
      · intro _; exact ⟨axesL.indexOf j, rfl⟩
    · simp only [if_neg he]
      constructor
      · rintro ⟨i, hi⟩; exact absurd hi (by simp)
      · rintro ⟨-, hi⟩; exact absurd hi (by omega)
  · constructor
    · rintro ⟨i, hi⟩
      rw [sliceFor, if_neg hj] at hi
      exact absurd hi (by simp)
    · rintro ⟨hmem, -⟩; exact absurd hmem hj

theorem buildLimitSlices_error_iff (axes : List (List ℚ))
    (limits : List (ℚ × ℚ)) (axesL : List Nat) (js : List Nat) :
    (∃ i, buildLimitSlices axes limits axesL js = .error (.emptySlice i)) ↔
    ∃ j ∈ js, ∃ i, sliceFor axes limits axesL j = .error (.emptySlice i) := by
  induction js with
  | nil => simp [buildLimitSlices]
  | cons j js ih =>
      rcases h : sliceFor axes limits axesL j with e | s
      · obtain ⟨i, rfl⟩ := sliceFor_error_emptySlice h
        simp only [buildLimitSlices, h]
        constructor
        · intro _; exact ⟨j, List.mem_cons_self j js, i, h⟩
        · intro _; exact ⟨i, rfl⟩
      · rcases hr : buildLimitSlices axes limits axesL js with e2 | rest
        · simp only [buildLimitSlices, h, hr]
          rw [hr] at ih
          constructor
          · intro hi
            obtain ⟨j2, hj2, hs⟩ := ih.mp hi
            exact ⟨j2, List.mem_cons_of_mem j hj2, hs⟩
          · rintro ⟨j2, hj2, i, hi⟩
            rcases List.mem_cons.mp hj2 with rfl | hj2
            · rw [h] at hi; exact absurd hi (by simp)
            · exact ih.mpr ⟨j2, hj2, i, hi⟩
        · simp only [buildLimitSlices, h, hr]
          rw [hr] at ih
          constructor
          · rintro ⟨i, hi⟩; exact absurd hi (by simp)
          · rintro ⟨j2, hj2, i, hi⟩
            rcases List.mem_cons.mp hj2 with rfl | hj2
            · rw [h] at hi; exact absurd hi (by simp)
            · obtain ⟨i2, hi2⟩ := ih.mpr ⟨j2, hj2, i, hi⟩
              exact absurd hi2 (by simp)

/-- C4: with a matching number of limit pairs, `limit` fails with the
empty-slice `ValueError` exactly when some requested axis maps both bounds
to the same nearest-sample index; in particular `limit((x,x))` on any valid
axis always fails that way. -/
theorem limit_empty_slice_iff :
    (∀ (m : MeshData) (limits : List (ℚ × ℚ)) (axesL : List Nat),
        axesL.length = limits.length →
        ((∃ i, m.limit limits (some axesL) = .error (.emptySlice i)) ↔
          ∃ j ∈ axesL, j < m.ndim ∧
            argminAbs (limits.getD (axesL.indexOf j) (0, 0)).1 (m.axes.getD j []) =
            argminAbs (limits.getD (axesL.indexOf j) (0, 0)).2 (m.axes.getD j []))) ∧
    (∀ (m : MeshData) (x : ℚ) (j : Nat), j < m.ndim →
        ∃ i, m.limit [(x, x)] (some [j]) = .error (.emptySlice i)) := by
  have main : ∀ (m : MeshData) (limits : List (ℚ × ℚ)) (axesL : List Nat),
      axesL.length = limits.length →
      ((∃ i, m.limit limits (some axesL) = .error (.emptySlice i)) ↔
        ∃ j ∈ axesL, j < m.ndim ∧
          argminAbs (limits.getD (axesL.indexOf j) (0, 0)).1 (m.axes.getD j []) =
          argminAbs (limits.getD (axesL.indexOf j) (0, 0)).2 (m.axes.getD j [])) := by
    intro m limits axesL h
    have hiff := buildLimitSlices_error_iff m.axes limits axesL (List.range m.ndim)
    simp only [MeshData.limit, Option.getD_some, if_neg (by omega : ¬axesL.length ≠ limits.length)]
    have step : (∃ i, (match buildLimitSlices m.axes limits axesL (List.range m.ndim) with
        | .error e => (.error e : Except MeshError MeshData)
        | .ok slices => .ok { m with data := applySlices slices m.data,
                                     axes := List.zipWith sliceList slices m.axes }) =
          .error (.emptySlice i)) ↔
        (∃ i, buildLimitSlices m.axes limits axesL (List.range m.ndim) =
          .error (.emptySlice i)) := by
      rcases hb : buildLimitSlices m.axes limits axesL (List.range m.ndim) with e | sl <;>
        simp [hb]
    rw [step, hiff]
    simp only [List.mem_range, sliceFor_error_iff]
    constructor
    · rintro ⟨j, h1, h2, h3⟩; exact ⟨j, h2, h1, h3⟩
    · rintro ⟨j, h1, h2, h3⟩; exact ⟨j, h2, h1, h3⟩
  refine ⟨main, fun m x j hj => ?_⟩
  exact (main m [(x, x)] [j] rfl).mpr
    ⟨j, List.mem_cons_self j [], hj, by
      simp only [List.indexOf_cons_self, List.getD_cons_zero]⟩

theorem limit_empty_slice_iff_witness :
    (0 : Nat) < mesh22.ndim ∧
    ∃ i, mesh22.limit [(0, 0)] (some [0]) = .error (.emptySlice i) :=
  ⟨by decide, limit_empty_slice_iff.2 mesh22 0 0 (by decide)⟩

/-! ## C1: the shape invariant -/

theorem buildLimitSlices_ok_length {axes : List (List ℚ)}
    {limits : List (ℚ × ℚ)} {axesL : List Nat} :
    ∀ {js sl}, buildLimitSlices axes limits axesL js = .ok sl →
      sl.length = js.length := by
  intro js
  induction js with
  | nil =>
      intro sl h
      simp only [buildLimitSlices, Except.ok.injEq] at h
      simp [← h]
  | cons j js ih =>
      intro sl h
      simp only [buildLimitSlices] at h
      split at h
      · exact absurd h (by simp)
      · split at h
        · exact absurd h (by simp)
        · simp only [Except.ok.injEq] at h
          subst h
          simp [ih (by assumption)]

theorem valid_slices {m : MeshData} (hv : m.valid) (sl : List Slice)
    (hl : sl.length = m.data.shape.length) :
    MeshData.valid { m with data := applySlices sl m.data,
                            axes := List.zipWith sliceList sl m.axes } := by
  obtain ⟨hlen, hax⟩ := hv
  constructor
  · simp only [applySlices, List.length_zipWith]
    omega
  · intro j hj
    simp only [List.length_zipWith] at hj
    have hj1 : j < sl.length := by omega
    have hj2 : j < m.axes.length := by omega
    have hj3 : j < m.data.shape.length := by omega
    have e1 : (List.zipWith sliceList sl m.axes).getD j [] =
        sliceList (sl.get ⟨j, hj1⟩) (m.axes.get ⟨j, hj2⟩) := by
      rw [List.getD_eq_getElem _ _ (by simp only [List.length_zipWith]; omega)]
      simp [List.getElem_zipWith]
    have e2 : (applySlices sl m.data).shape.getD j 0 =
        sliceLen (sl.get ⟨j, hj1⟩) (m.data.shape.get ⟨j, hj3⟩) := by
      simp only [applySlices]
      rw [List.getD_eq_getElem _ _ (by simp only [List.length_zipWith]; omega)]
      simp [List.getElem_zipWith]
    rw [e1, e2, length_sliceList]
    have := hax j hj2
    rw [List.getD_eq_getElem _ _ hj2, List.getD_eq_getElem _ _ (by omega)] at this
    simp [this]

theorem limit_ok_valid {m : MeshData} (hv : m.valid)
    {limits : List (ℚ × ℚ)} {axesOpt : Option (List Nat)} {m2 : MeshData}
    (h : m.limit limits axesOpt = .ok m2) : m2.valid := by
  simp only [MeshData.limit] at h
  split at h
  · exact absurd h (by simp)
  · split at h
    · exact absurd h (by simp)
    · simp only [Except.ok.injEq] at h
      subst h
      exact valid_slices hv _ (by
        have := buildLimitSlices_ok_length (by assumption)
        simpa [MeshData.ndim] using this)

theorem mk_valid {data : NDArray} {axes : List (List ℚ)}
    {labels units : Option (List String)} {m : MeshData}
    (h : mkMeshData data axes labels units = .ok m) : m.valid := by
  simp only [mkMeshData] at h
  split at h
  · exact absurd h (by simp)
  · split at h
    · exact absurd h (by simp)
    · simp only [Except.ok.injEq] at h
      subst h
      rename_i hne hsh
      rw [not_not] at hsh
      constructor
      · simp [hsh]
      · intro j hj
        simp only [hsh, getD_map_length]

theorem flip_slices_mem (axesL : List Nat) (init : List Slice)
    (hinit : ∀ s ∈ init, s = Slice.all ∨ s = Slice.rev) :
    ∀ s ∈ axesL.foldl (fun sl ax => sl.set ax Slice.rev) init,
      s = Slice.all ∨ s = Slice.rev := by
  induction axesL generalizing init with
  | nil => exact hinit
  | cons a t ih =>
      intro s hs
      refine ih _ ?_ s hs
      intro s2 hs2
      rcases List.mem_or_eq_of_mem_set hs2 with h | h
      · exact hinit s2 h
      · right; exact h

theorem flip_slices_length (axesL : List Nat) (init : List Slice) :
    (axesL.foldl (fun sl ax => sl.set ax Slice.rev) init).length = init.length := by
  induction axesL generalizing init with
  | nil => rfl
  | cons a t ih => simp only [List.foldl_cons]; rw [ih, List.length_set]

theorem zipWith_sliceLen_id (sl : List Slice) (ds : List Nat)
    (hmem : ∀ s ∈ sl, s = Slice.all ∨ s = Slice.rev)
    (hl : sl.length = ds.length) :
    List.zipWith sliceLen sl ds = ds := by
  induction sl generalizing ds with
  | nil =>
      cases ds with
      | nil => rfl
      | cons d dt => simp at hl
  | cons s st ih =>
      cases ds with
      | nil => simp at hl
      | cons d dt =>
          simp only [List.zipWith_cons_cons]
          congr 1
          · rcases hmem s (List.mem_cons_self s st) with h | h <;> subst h <;> rfl
          · exact ih dt (fun s2 hs2 => hmem s2 (List.mem_cons_of_mem s hs2))
              (by simpa using hl)

theorem flip_axes_lengths (axesL : List Nat) (axs : List (List ℚ)) :
    (axesL.foldl (fun a ax => a.set ax (a.getD ax []).reverse) axs).length =
      axs.length ∧
    ∀ j, ((axesL.foldl (fun a ax => a.set ax (a.getD ax []).reverse) axs).getD j
        []).length = (axs.getD j []).length := by
  induction axesL generalizing axs with
  | nil => exact ⟨rfl, fun _ => rfl⟩
  | cons a t ih =>
      simp only [List.foldl_cons]
      obtain ⟨ih1, ih2⟩ := ih (axs.set a (axs.getD a []).reverse)
      refine ⟨by rw [ih1, List.length_set], fun j => ?_⟩
      rw [ih2 j]
      by_cases hj : j < axs.length
      · by_cases haj : a = j
        · subst haj
          rw [List.getD_eq_getElem _ _ (by rw [List.length_set]; exact hj),
              List.getElem_set_self (by rw [List.length_set]; exact hj)]
          simp
        · rw [List.getD_eq_getElem _ _ (by rw [List.length_set]; exact hj),
              List.getElem_set_ne haj, ← List.getD_eq_getElem _ _ hj]
      · have hle : axs.length ≤ j := le_of_not_lt hj
        rw [List.getD_eq_default _ _ (by rw [List.length_set]; exact hle),
            List.getD_eq_default _ _ hle]

theorem flip_valid (m : MeshData) (hv : m.valid) (axesL : List Nat) :
    (m.flip axesL).valid := by
  by_cases h0 : axesL.length = 0
  · simpa only [MeshData.flip, if_pos h0] using hv
  · simp only [MeshData.flip, if_neg h0]
    obtain ⟨hlen, hax⟩ := hv
    have hmem : ∀ s ∈ axesL.foldl (fun sl ax => sl.set ax Slice.rev)
        (m.axes.map fun _ => Slice.all), s = Slice.all ∨ s = Slice.rev := by
      refine flip_slices_mem _ _ ?_
      intro s hs
      left
      obtain ⟨_, _, rfl⟩ := List.mem_map.mp hs
      rfl
    have hslen : (axesL.foldl (fun sl ax => sl.set ax Slice.rev)
        (m.axes.map fun _ => Slice.all)).length = m.axes.length := by
      rw [flip_slices_length, List.length_map]
    have hshape : (applySlices (axesL.foldl (fun sl ax => sl.set ax Slice.rev)
        (m.axes.map fun _ => Slice.all)) m.data).shape = m.data.shape := by
      simp only [applySlices]
      exact zipWith_sliceLen_id _ _ hmem (by omega)
    obtain ⟨f1, f2⟩ := flip_axes_lengths axesL m.axes
    constructor
    · show (axesL.foldl (fun a ax => a.set ax (a.getD ax []).reverse)
        m.axes).length = _
      rw [f1, hshape]
      exact hlen
    · intro j hj
      show ((axesL.foldl (fun a ax => a.set ax (a.getD ax []).reverse)
        m.axes).getD j []).length = _
      rw [f2 j, hshape]
      refine hax j ?_
      rw [f1] at hj
      exact hj

theorem normalize_valid (m : MeshData) (hv : m.valid) : m.normalize.valid := hv

theorem interpolate_ok_valid {m : MeshData} {a1 a2 : Option (List ℚ)}
    {srt : Bool} {m2 : MeshData} (h : m.interpolate a1 a2 srt = .ok m2) :
    m2.valid := by
  simp only [MeshData.interpolate] at h
  split at h
  · exact absurd h (by simp)
  · split at h
    · exact absurd h (by simp)
    · simp only [Except.ok.injEq] at h
      subst h
      constructor
      · rfl
      · intro j hj
        match j with
        | 0 => rfl
        | 1 => rfl
        | j + 2 => exact absurd hj (by simp)

theorem autolimit_ok_valid {m : MeshData} (hv : m.valid) {axesArg : List Nat}
    {f : Nat → ℚ × ℚ} {m2 : MeshData}
    (h : m.autolimit axesArg f = .ok m2) : m2.valid := by
  simp only [MeshData.autolimit] at h
  exact limit_ok_valid hv h

/-- C1: the shape invariant (`len(axes) == data.ndim` and
`axes[j].size == data.shape[j]` for every `j`) holds immediately after a
successful construction and is preserved by every mutating call that
returns — `limit`, `autolimit` (for any interval its collaborators
produce), `interpolate`, `flip` and `normalize`. -/
theorem mesh_shape_invariant :
    (∀ (data : NDArray) (axes : List (List ℚ))
        (labels units : Option (List String)) (m : MeshData),
        mkMeshData data axes labels units = .ok m → m.valid) ∧
    (∀ (m : MeshData) (limits : List (ℚ × ℚ)) (axesOpt : Option (List Nat))
        (m2 : MeshData),
        m.valid → m.limit limits axesOpt = .ok m2 → m2.valid) ∧
    (∀ (m : MeshData) (axesArg : List Nat) (f : Nat → ℚ × ℚ) (m2 : MeshData),
        m.valid → m.autolimit axesArg f = .ok m2 → m2.valid) ∧
    (∀ (m : MeshData) (a1 a2 : Option (List ℚ)) (srt : Bool) (m2 : MeshData),
        m.valid → m.interpolate a1 a2 srt = .ok m2 → m2.valid) ∧
    (∀ (m : MeshData) (axesL : List Nat), m.valid → (m.flip axesL).valid) ∧
    (∀ m : MeshData, m.valid → m.normalize.valid) :=
  ⟨fun _ _ _ _ _ h => mk_valid h,
   fun _ _ _ _ hv h => limit_ok_valid hv h,
   fun _ _ _ _ hv h => autolimit_ok_valid hv h,
   fun _ _ _ _ _ _ h => interpolate_ok_valid h,
   fun m axesL hv => flip_valid m hv axesL,
   fun _ hv => normalize_valid _ hv⟩

theorem mesh_shape_invariant_witness :
    mesh55.valid ∧ mesh55lim.valid := by
  refine ⟨by decide, ?_⟩
  exact mesh_shape_invariant.2.1 mesh55 [(1, 3)] (some [0]) mesh55lim
    (by decide) (by with_unfolding_all rfl)

/-! ## C5: flip involution -/

theorem map_const_slice (l : List (List ℚ)) :
    (l.map fun _ => Slice.all) = List.replicate l.length Slice.all := by
  induction l with
  | nil => rfl
  | cons a t ih => simp [List.replicate_succ, ih]

theorem sliceTargets_replicate_all (ds idx : List Nat)
    (h : idx.length = ds.length) :
    sliceTargets (List.replicate ds.length Slice.all) ds idx = idx := by
  induction ds generalizing idx with
  | nil =>
      cases idx with
      | nil => rfl
      | cons i it => simp at h
  | cons d dt ih =>
      cases idx with
      | nil => simp at h
      | cons i it =>
          simp only [List.length_cons, List.replicate_succ, sliceTargets,
            sliceIdxMap]
          rw [ih it (by simpa using h)]

theorem sliceTargets_flip_invol (j : Nat) (ds idx : List Nat)
    (h : List.Forall₂ (· < ·) idx ds) :
    sliceTargets ((List.replicate ds.length Slice.all).set j Slice.rev) ds
      (sliceTargets ((List.replicate ds.length Slice.all).set j Slice.rev) ds
        idx) = idx := by
  induction h generalizing j with
  | nil => rfl
  | @cons i d it dt hid hrest ih =>
      have hlen : it.length = dt.length := hrest.length_eq
      cases j with
      | zero =>
          have e1 : sliceTargets (List.replicate dt.length Slice.all) dt it = it :=
            sliceTargets_replicate_all dt it hlen
          simp only [List.length_cons, List.replicate_succ, List.set_cons_zero,
            sliceTargets, sliceIdxMap, e1]
          rw [show d - 1 - (d - 1 - i) = i from by omega]
      | succ j =>
          simp only [List.length_cons, List.replicate_succ, List.set_cons_succ,
            sliceTargets, sliceIdxMap]
          rw [ih j]

theorem applySlices_flip_twice (d : NDArray) (j : Nat) :
    (applySlices ((List.replicate d.shape.length Slice.all).set j Slice.rev)
      (applySlices ((List.replicate d.shape.length Slice.all).set j Slice.rev)
        d)).extEq d := by
  have hm : ∀ s ∈ (List.replicate d.shape.length Slice.all).set j Slice.rev,
      s = Slice.all ∨ s = Slice.rev := by
    intro s hs
    rcases List.mem_or_eq_of_mem_set hs with h | h
    · left; exact List.eq_of_mem_replicate h
    · right; exact h
  have hsh : List.zipWith sliceLen
      ((List.replicate d.shape.length Slice.all).set j Slice.rev) d.shape =
      d.shape :=
    zipWith_sliceLen_id _ _ hm (by simp)
  constructor
  · show List.zipWith sliceLen _ (List.zipWith sliceLen _ d.shape) = d.shape
    rw [hsh, hsh]
  · intro idx hidx
    have hsh2 : (applySlices ((List.replicate d.shape.length Slice.all).set j
        Slice.rev) (applySlices ((List.replicate d.shape.length Slice.all).set
        j Slice.rev) d)).shape = d.shape := by
      show List.zipWith sliceLen _ (List.zipWith sliceLen _ d.shape) = d.shape
      rw [hsh, hsh]
    have hidx2 : List.Forall₂ (· < ·) idx d.shape :=
      mem_allIdx.mp (hsh2 ▸ hidx)
    show d.get (sliceTargets _ d.shape
      (sliceTargets _ (List.zipWith sliceLen _ d.shape) idx)) = d.get idx
    rw [hsh, sliceTargets_flip_invol j d.shape idx hidx2]

/-- C5: `flip()` with no axes is a no-op, and flipping the same axis twice
restores the container's axes and (extensionally) its data. -/
theorem flip_involution :
    (∀ m : MeshData, m.flip [] = m) ∧
    (∀ (m : MeshData) (j : Nat), m.valid →
      ((m.flip [j]).flip [j]).axes = m.axes ∧
      ((m.flip [j]).flip [j]).data.extEq m.data) := by
  constructor
  · intro m
    rfl
  · intro m j hv
    obtain ⟨hlen, -⟩ := hv
    have h1 : ¬([j].length = 0) := by simp
    constructor
    · simp only [MeshData.flip, if_neg h1, List.foldl_cons, List.foldl_nil]
      by_cases hj : j < m.axes.length
      · have hj2 : j < (m.axes.set j (m.axes.getD j []).reverse).length := by
          rw [List.length_set]; exact hj
        rw [List.getD_eq_getElem _ _ hj2, List.getElem_set_self hj2,
            List.reverse_reverse, List.set_set]
        exact set_getD_self m.axes j []
      · have hle := le_of_not_lt hj
        rw [List.set_eq_of_length_le hle, List.set_eq_of_length_le hle]
    · simp only [MeshData.flip, if_neg h1, List.foldl_cons, List.foldl_nil]
      rw [map_const_slice, map_const_slice, List.length_set, hlen]
      exact applySlices_flip_twice m.data j

theorem flip_involution_witness :
    ((mesh22.flip [0]).flip [0]).axes = mesh22.axes ∧
    ((mesh22.flip [0]).flip [0]).data.extEq mesh22.data :=
  flip_involution.2 mesh22 0 (by decide)

/-! ## C6: interpolation onto the mesh's own axes -/

theorem countP_le_getD (l : List ℚ) (h : l.Pairwise (· < ·)) (j : Nat)
    (hj : j < l.length) :
    l.countP (fun a => decide (a ≤ l.getD j 0)) = j + 1 := by
  induction l generalizing j with
  | nil => simp at hj
  | cons b tl ih =>
      rw [List.pairwise_cons] at h
      obtain ⟨hb, htl⟩ := h
      cases j with
      | zero =>
          rw [List.countP_cons]
          simp only [List.getD_cons_zero]
          rw [if_pos (by simp)]
          rw [List.countP_eq_zero.mpr]
          intro a ha
          simp only [decide_eq_true_eq]
          exact not_le.mpr (hb a ha)
      | succ j =>
          have hjlen : j < tl.length := by simpa using hj
          rw [List.countP_cons, List.getD_cons_succ, ih htl j hjlen]
          rw [if_pos ?_]
          simp only [decide_eq_true_eq]
          refine le_of_lt (hb _ ?_)
          rw [List.getD_eq_getElem _ _ hjlen]
          exact List.getElem_mem hjlen

theorem pairwise_getD_le (ax : List ℚ) (h : ax.Pairwise (· < ·))
    {i j : Nat} (hij : i ≤ j) (hj : j < ax.length) :
    ax.getD i 0 ≤ ax.getD j 0 := by
  rcases Nat.lt_or_ge i j with hlt | hge
  · rw [List.getD_eq_getElem _ _ (by omega), List.getD_eq_getElem _ _ hj]
    exact le_of_lt (List.pairwise_iff_getElem.mp h i j (by omega) hj hlt)
  · have : i = j := by omega
    subst this
    exact le_refl _

theorem findT_node (ax : List ℚ) (h : ax.Pairwise (· < ·))
    (hlen : 2 ≤ ax.length) (j : Nat) (hj : j < ax.length) :
    (j + 1 < ax.length → findT ax (ax.getD j 0) = (j, 0)) ∧
    (j + 1 = ax.length → findT ax (ax.getD j 0) = (ax.length - 2, 1)) := by
  have hc := countP_le_getD ax h j hj
  constructor
  · intro hj1
    simp only [findT]
    rw [hc]
    have hk : min (j + 1 - 1) (ax.length - 2) = j := by omega
    rw [hk]
    simp [sub_self]
  · intro hj1
    simp only [findT]
    rw [hc]
    have hk : min (j + 1 - 1) (ax.length - 2) = ax.length - 2 := by omega
    rw [hk]
    have hsucc : ax.length - 2 + 1 = j := by omega
    rw [hsucc]
    have hne : ax.getD j 0 - ax.getD (ax.length - 2) 0 ≠ 0 := by
      refine sub_ne_zero.mpr (ne_of_gt ?_)
      rw [List.getD_eq_getElem _ _ hj, List.getD_eq_getElem _ _ (by omega)]
      exact List.pairwise_iff_getElem.mp h (ax.length - 2) j (by omega) hj
        (by omega)
    rw [div_self hne]

theorem gridInterp2_node (ax0 ax1 : List ℚ) (f : Nat → Nat → ℚ)
    (h0 : ax0.Pairwise (· < ·)) (h1 : ax1.Pairwise (· < ·))
    (hl0 : 2 ≤ ax0.length) (hl1 : 2 ≤ ax1.length)
    {i0 i1 : Nat} (hi0 : i0 < ax0.length) (hi1 : i1 < ax1.length) :
    gridInterp2 ax0 ax1 f (ax0.getD i0 0) (ax1.getD i1 0) = f i0 i1 := by
  have hb : ax0.getD 0 0 ≤ ax0.getD i0 0 ∧
      ax0.getD i0 0 ≤ ax0.getD (ax0.length - 1) 0 ∧
      ax1.getD 0 0 ≤ ax1.getD i1 0 ∧
      ax1.getD i1 0 ≤ ax1.getD (ax1.length - 1) 0 :=
    ⟨pairwise_getD_le ax0 h0 (Nat.zero_le _) hi0,
     pairwise_getD_le ax0 h0 (by omega) (by omega),
     pairwise_getD_le ax1 h1 (Nat.zero_le _) hi1,
     pairwise_getD_le ax1 h1 (by omega) (by omega)⟩
  simp only [gridInterp2, if_pos hb]
  rcases (by omega : i0 + 1 < ax0.length ∨ i0 + 1 = ax0.length) with c0 | c0 <;>
    rcases (by omega : i1 + 1 < ax1.length ∨ i1 + 1 = ax1.length) with c1 | c1
  · rw [(findT_node ax0 h0 hl0 i0 hi0).1 c0, (findT_node ax1 h1 hl1 i1 hi1).1 c1]
    norm_num
  · rw [(findT_node ax0 h0 hl0 i0 hi0).1 c0, (findT_node ax1 h1 hl1 i1 hi1).2 c1]
    norm_num
    rw [show ax1.length - 2 + 1 = i1 from by omega]
  · rw [(findT_node ax0 h0 hl0 i0 hi0).2 c0, (findT_node ax1 h1 hl1 i1 hi1).1 c1]
    norm_num
    rw [show ax0.length - 2 + 1 = i0 from by omega]
  · rw [(findT_node ax0 h0 hl0 i0 hi0).2 c0, (findT_node ax1 h1 hl1 i1 hi1).2 c1]
    norm_num
    rw [show ax0.length - 2 + 1 = i0 from by omega,
        show ax1.length - 2 + 1 = i1 from by omega]

theorem foldr_insert_range (l : List ℚ) (h : l.Pairwise (· < ·)) :
    ∀ m k, k + m ≤ l.length →
      List.foldr (insertByVal l) [] (List.range' k m) = List.range' k m := by
  intro m
  induction m with
  | zero => intro k _; rfl
  | succ m ih =>
      intro k hk
      rw [List.range'_succ, List.foldr_cons, ih (k + 1) (by omega)]
      cases m with
      | zero => rfl
      | succ m2 =>
          rw [List.range'_succ]
          show insertByVal l k ((k + 1) :: List.range' (k + 1 + 1) m2) = _
          have hlt : l.getD k 0 < l.getD (k + 1) 0 := by
            rw [List.getD_eq_getElem _ _ (by omega),
                List.getD_eq_getElem _ _ (by omega)]
            exact List.pairwise_iff_getElem.mp h k (k + 1) (by omega) (by omega)
              (by omega)
          simp only [insertByVal, if_neg (not_lt.mpr (le_of_lt hlt))]

theorem argsort_sorted (l : List ℚ) (h : l.Pairwise (· < ·)) :
    argsort l = List.range l.length := by
  unfold argsort
  rw [List.range_eq_range']
  exact foldr_insert_range l h l.length 0 (by omega)

theorem map_getD_range (l : List ℚ) :
    (List.range l.length).map (fun k => l.getD k 0) = l := by
  refine List.ext_getElem (by simp) ?_
  intro i h1 h2
  simp only [List.getElem_map, List.getElem_range]
  exact List.getD_eq_getElem l 0 h2

theorem sortAxesData_two (a0 a1 : List ℚ) (d : NDArray)
    (h0 : a0.Pairwise (· < ·)) (h1 : a1.Pairwise (· < ·)) :
    sortAxesData [a0, a1] d =
      ([a0, a1], takeAlong (takeAlong d 0 (List.range a0.length)) 1
        (List.range a1.length)) := by
  show List.foldl _ ([a0, a1], d) (List.range 2) = _
  rw [show List.range 2 = [0, 1] from rfl]
  simp only [List.foldl_cons, List.foldl_nil, List.getD_cons_zero,
    List.getD_cons_succ, List.set_cons_zero, List.set_cons_succ]
  rw [argsort_sorted a0 h0, map_getD_range a0, argsort_sorted a1 h1,
    map_getD_range a1]

theorem takeAlong_get_two (d : NDArray) (n0 n1 i0 i1 : Nat)
    (hi0 : i0 < n0) (hi1 : i1 < n1) :
    (takeAlong (takeAlong d 0 (List.range n0)) 1 (List.range n1)).get
      [i0, i1] = d.get [i0, i1] := by
  simp [takeAlong, List.getElem?_range hi0, List.getElem?_range hi1]

/-- C6: for a container whose two axes are already strictly increasing
(with at least two samples each, as the linear grid interpolator requires),
interpolating onto the container's own axes along both dimensions with
`sorted=False` reproduces the original data exactly and keeps the axes. -/
theorem interpolate_identity (m : MeshData) (a0 a1 : List ℚ)
    (hax : m.axes = [a0, a1]) (hv : m.valid)
    (h0 : a0.Pairwise (· < ·)) (h1 : a1.Pairwise (· < ·))
    (hl0 : 2 ≤ a0.length) (hl1 : 2 ≤ a1.length) :
    ∃ m2, m.interpolate (some a0) (some a1) false = .ok m2 ∧
      m2.data.extEq m.data ∧ m2.axes = m.axes := by
  obtain ⟨hlen, haxlen⟩ := hv
  have hnd : m.ndim = 2 := by
    show m.data.shape.length = 2
    rw [← hlen, hax]
    rfl
  have hs0 : (m.axes.getD 0 []).length = m.data.shape.getD 0 0 :=
    haxlen 0 (by rw [hax]; simp)
  have hs1 : (m.axes.getD 1 []).length = m.data.shape.getD 1 0 :=
    haxlen 1 (by rw [hax]; simp)
  rw [hax] at hs0 hs1
  simp only [List.getD_cons_zero, List.getD_cons_succ] at hs0 hs1
  have hshape : m.data.shape = [a0.length, a1.length] := by
    obtain ⟨s0, s1, hs⟩ := List.length_eq_two.mp hnd
    rw [hs] at hs0 hs1 ⊢
    simp only [List.getD_cons_zero, List.getD_cons_succ] at hs0 hs1
    rw [hs0, hs1]
  have key : m.interpolate (some a0) (some a1) false = .ok
      { m with
        data := { shape := [a0.length, a1.length],
                  get := fun idx =>
                    gridInterp2 a0 a1
                      (fun k l => (takeAlong (takeAlong m.data 0
                        (List.range a0.length)) 1
                        (List.range a1.length)).get [k, l])
                      (a0.getD (idx.getD 0 0) 0) (a1.getD (idx.getD 1 0) 0) },
        axes := [a0, a1] } := by
    simp only [MeshData.interpolate]
    rw [if_neg (by omega), if_neg (by omega)]
    rw [hax, sortAxesData_two a0 a1 m.data h0 h1]
    rfl
  refine ⟨_, key, ⟨hshape.symm, ?_⟩, by rw [hax]⟩
  intro idx hidx
  have hf : List.Forall₂ (· < ·) idx [a0.length, a1.length] :=
    mem_allIdx.mp hidx
  obtain ⟨i0, l', hi0, hf2, rfl⟩ := List.forall₂_cons_right_iff.mp hf
  obtain ⟨i1, l2, hi1, hf3, rfl⟩ := List.forall₂_cons_right_iff.mp hf2
  obtain rfl := List.forall₂_nil_right_iff.mp hf3
  show gridInterp2 a0 a1
      (fun k l => (takeAlong (takeAlong m.data 0 (List.range a0.length)) 1
        (List.range a1.length)).get [k, l])
      (a0.getD i0 0) (a1.getD i1 0) = m.data.get [i0, i1]
  rw [gridInterp2_node a0 a1 _ h0 h1 hl0 hl1 hi0 hi1]
  exact takeAlong_get_two m.data a0.length a1.length i0 i1 hi0 hi1

theorem interpolate_identity_witness :
    ∃ m2, mesh22.interpolate (some [0, 1]) (some [0, 1]) false = .ok m2 ∧
      m2.data.extEq mesh22.data ∧ m2.axes = mesh22.axes :=
  interpolate_identity mesh22 [0, 1] [0, 1] rfl (by decide) (by decide)
    (by decide) (by decide) (by decide)
